import Mathlib

/-!
# Verification of the promptflow connection-management service

This file gives a shallow embedding of
`src/promptflow/promptflow/_sdk/_service/apis/connection.py` — the connection
CRUD API surface — together with the parts of the connection core that the
API calls into.  The service internals (`ConnectionOperations`,
`_Connection._load`, `_Connection._to_dict`, the marshmallow connection
schemas) are not part of the repository slice; every definition standing for
one of them is modelled from the specification and its doc comment starts
with `Modelled from the spec:`.  Definitions taken directly from
`connection.py` cite the lines they embed.

Dictionaries travelling over the wire are embedded as association lists
`List (String × String)`; timestamps are natural numbers rendered with
`toString` when they enter a wire dictionary.
-/

set_option autoImplicit false

namespace Promptflow

/-! ## Association-list helpers (wire dictionaries) -/

/-- Lookup of a key in a wire dictionary (first occurrence wins, as in a
Python `dict` that was built left to right without duplicate keys). -/
def alookup : List (String × String) → String → Option String
  | [], _ => none
  | (k, v) :: rest, key => if k = key then some v else alookup rest key

/-- The keys of a wire dictionary. -/
def akeys (l : List (String × String)) : List String :=
  l.map Prod.fst

/-- `aset d k v` is `d[k] = v` on a Python dictionary: it overwrites the
entry for `k` in place when present and appends it otherwise. -/
def aset : List (String × String) → String → String → List (String × String)
  | [], k, v => [(k, v)]
  | (k', v') :: rest, k, v =>
    if k' = k then (k, v) :: rest else (k', v') :: aset rest k v

/-! ## Data model -/

/-- Modelled from the spec: a Field Spec (§3) — one configuration field of a
connection type schema.  `allow_none` is the marshmallow attribute the
source's catalog builder reads; the spec calls it `optional`.  The spec
folds the discriminator's `allowed_values[0]` into the field's `default`:
for the `type` field the default is the type's own discriminator value. -/
structure FieldSpec where
  name : String
  is_secret : Bool
  allow_none : Bool
  default : Option String
  deriving Repr, DecidableEq

/-- Modelled from the spec: a Connection Type Schema (§3) — the marshmallow
schema classes under `promptflow._sdk.schemas._connection` are not part of
the repository slice.  `class_name` is the Python class name (the catalog
builder strips the `"Schema"` suffix from it); `type_name` is the canonical
discriminator value. -/
structure ConnectionSchema where
  class_name : String
  type_name : String
  fields : List FieldSpec
  deriving Repr, DecidableEq

/-- Modelled from the spec: registry lookup by discriminator value
(§4.1 `get_schema`). -/
def get_schema (reg : List ConnectionSchema) (t : String) : Option ConnectionSchema :=
  reg.find? (fun sch => decide (sch.type_name = t))

/-- Modelled from the spec: a Connection Record (§3) — `_Connection` entities
are not part of the repository slice.  The two value buckets are disjoint
per the record invariant; `created_date` / `last_modified_date` are the wire
names of the spec's `created_at` / `last_modified_at`. -/
structure ConnectionRecord where
  name : String
  type : String
  plain_values : List (String × String)
  secret_values : List (String × String)
  created_date : Nat
  last_modified_date : Nat
  expiry_time : Option Nat
  deriving Repr, DecidableEq

/-- Modelled from the spec: the error taxonomy of §7. -/
inductive ServiceError where
  | notFoundError
  | conflictError
  | unknownTypeError
  | schemaValidationError (fields : List String)
  | missingRequiredFieldError (fields : List String)
  deriving Repr, DecidableEq

/-! ## The store (external collaborator, narrow keyed interface) -/

/-- Modelled from the spec: the store's keyed `get` (§2) — durable keyed
storage addressed by record name. -/
def store_get : List ConnectionRecord → String → Option ConnectionRecord
  | [], _ => none
  | r :: rest, n => if r.name = n then some r else store_get rest n

/-- Modelled from the spec: the store's keyed `put` (§2) — replaces the
record of the same name when present, appends otherwise. -/
def store_put (store : List ConnectionRecord) (c : ConnectionRecord) : List ConnectionRecord :=
  match store_get store c.name with
  | some _ => store.map (fun r => if r.name = c.name then c else r)
  | none => store ++ [c]

/-- Modelled from the spec: the store's keyed `delete` (§2). -/
def store_delete (store : List ConnectionRecord) (n : String) : List ConnectionRecord :=
  store.filter (fun r => decide (r.name ≠ n))

/-! ## Connection service — read path -/

/-- Modelled from the spec: redaction (§8, Glossary) — the returned record
has `secret_values` empty. -/
def redact (r : ConnectionRecord) : ConnectionRecord :=
  { r with secret_values := [] }

/-- Modelled from the spec: `ConnectionOperations.get` (§4.2) — fails with
`NotFoundError` when the name is absent; when `with_secrets` is false the
result's secret bucket is empty. -/
def connection_get (store : List ConnectionRecord) (n : String) (with_secrets : Bool) :
    Except ServiceError ConnectionRecord :=
  match store_get store n with
  | none => Except.error ServiceError.notFoundError
  | some r => Except.ok (if with_secrets then r else redact r)

/-- Modelled from the spec: `ConnectionOperations.list` (§4.2) — up to
`max_results` records, all of them when `all_results` is set, every returned
record redacted at this layer. -/
def connection_list (store : List ConnectionRecord) (max_results : Nat) (all_results : Bool) :
    List ConnectionRecord :=
  (if all_results then store else store.take max_results).map redact

/-- Modelled from the spec: `ConnectionOperations.delete` (§4.3) — removes
the record, `NotFoundError` when absent. -/
def connection_delete (store : List ConnectionRecord) (n : String) :
    Except ServiceError (List ConnectionRecord) :=
  match store_get store n with
  | none => Except.error ServiceError.notFoundError
  | some _ => Except.ok (store_delete store n)

/-! ## Record loading and validation -/

/-- The wire-dictionary keys that are not configuration fields of the type
schema: identity, timestamps and the advisory expiry. -/
def envelope_keys : List String :=
  ["name", "type", "created_date", "last_modified_date", "expiry_time"]

/-- The declared field of a schema carrying a given name, when any. -/
def field_of (sch : ConnectionSchema) (k : String) : Option FieldSpec :=
  sch.fields.find? (fun f => decide (f.name = k))

/-- Modelled from the spec: schema validation of §4.3 step 2 — every data key
must be a declared field of the schema and lands in the plain or secret
bucket according to its declaration; an undeclared key raises
`SchemaValidationError` naming the offending field. -/
def classify_fields (sch : ConnectionSchema) :
    List (String × String) →
      Except ServiceError (List (String × String) × List (String × String))
  | [] => Except.ok ([], [])
  | (k, v) :: rest =>
    match field_of sch k with
    | none => Except.error (ServiceError.schemaValidationError [k])
    | some f =>
      match classify_fields sch rest with
      | Except.error e => Except.error e
      | Except.ok (ps, ss) =>
        if f.is_secret then Except.ok (ps, (k, v) :: ss)
        else Except.ok ((k, v) :: ps, ss)

/-- Modelled from the spec: required-field validation of §4.3 step 3 — the
non-optional fields without a default that the data leaves unset. -/
def missing_required (sch : ConnectionSchema) (present : List String) : List String :=
  (sch.fields.filter
    (fun f => !f.allow_none && f.default.isNone && decide (f.name ∉ present))).map
    FieldSpec.name

/-- `params_override` applied to a data dictionary: each override overwrites
the entry of its key, mirroring `[{k: v} for k, v in connection_dict.items()]`
fed to `_load` (connection.py line 102). -/
def merge_overrides (data overrides : List (String × String)) : List (String × String) :=
  overrides.foldl (fun d kv => aset d kv.1 kv.2) data

/-- Modelled from the spec: `_Connection._load` — build a record from a wire
dictionary with `params_override` applied (§4.3 steps 1–4): resolve the type
schema (`UnknownTypeError` when the discriminator is not registered),
classify every non-envelope key into the plain or secret bucket per the
schema, and check required fields.  Timestamps are stamped by the write
path, not by loading. -/
def connection_load (reg : List ConnectionSchema) (data overrides : List (String × String)) :
    Except ServiceError ConnectionRecord :=
  let merged := merge_overrides data overrides
  match alookup merged "name", alookup merged "type" with
  | some nm, some ty =>
    match get_schema reg ty with
    | none => Except.error ServiceError.unknownTypeError
    | some sch =>
      let fieldData := merged.filter (fun kv => decide (kv.1 ∉ envelope_keys))
      match classify_fields sch fieldData with
      | Except.error e => Except.error e
      | Except.ok (ps, ss) =>
        match missing_required sch ("type" :: akeys fieldData) with
        | [] =>
          Except.ok
            { name := nm, type := ty, plain_values := ps, secret_values := ss,
              created_date := 0, last_modified_date := 0, expiry_time := none }
        | ms => Except.error (ServiceError.missingRequiredFieldError ms)
  | _, _ => Except.error (ServiceError.schemaValidationError ["name", "type"])

/-- The optional `expiry_time` entry of the wire shape: present exactly when
the record carries an expiry. -/
def expiry_part (o : Option Nat) : List (String × String) :=
  match o with
  | some e => [("expiry_time", toString e)]
  | none => []

/-- Modelled from the spec: `_Connection._to_dict` — the record wire shape of
§6: `{name, type, <plain fields...>, created_date, last_modified_date,
expiry_time?}`, with the secret bucket following the plain one when the
record still carries secrets (a redacted record contributes nothing there). -/
def to_dict (r : ConnectionRecord) : List (String × String) :=
  [("name", r.name), ("type", r.type)]
    ++ r.plain_values ++ r.secret_values
    ++ [("created_date", toString r.created_date),
        ("last_modified_date", toString r.last_modified_date)]
    ++ expiry_part r.expiry_time

/-! ## API surface (embedded from connection.py) -/

/-- The response model of the list endpoint (connection.py lines 20–30): the
keys `api.marshal_with` keeps on each element of the list response. -/
def list_connection_field : List String :=
  ["name", "type", "module", "expiry_time", "created_date", "last_modified_date"]

/-- `api.marshal_with(model, skip_none=True)` (flask-restx): the output keeps
only the model's keys, in model order, skipping keys the dictionary does not
carry. -/
def marshal (model : List String) (d : List (String × String)) : List (String × String) :=
  model.filterMap (fun k => (alookup d k).map (fun v => (k, v)))

/-- `ConnectionList.get` (connection.py lines 62–70): parse `max_results`
(default 50) and `all_results` (default false) from the query string, list
via the operations layer, serialise each record and marshal it through
`list_connection_field`. -/
def ConnectionList_get (store : List ConnectionRecord)
    (max_results : Option Nat) (all_results : Option Bool) :
    List (List (String × String)) :=
  let mr := max_results.getD 50
  let ar := all_results.getD false
  ((connection_list store mr ar).map to_dict).map (marshal list_connection_field)

/-- `Connection.get` (connection.py lines 79–83): fetch without secrets and
serialise. -/
def Connection_get (store : List ConnectionRecord) (n : String) :
    Except ServiceError (List (String × String)) :=
  match connection_get store n false with
  | Except.error e => Except.error e
  | Except.ok r => Except.ok (to_dict r)

/-- `ConnectionWithSecret.get` (connection.py lines 121–125, the
`/listsecrets` route): fetch with `with_secrets=True` and serialise. -/
def ConnectionWithSecret_get (store : List ConnectionRecord) (n : String) :
    Except ServiceError (List (String × String)) :=
  match connection_get store n true with
  | Except.error e => Except.error e
  | Except.ok r => Except.ok (to_dict r)

/-- `Connection.post` (connection.py lines 88–94) up to serialisation: the
body's `"name"` entry is overwritten with the URL path name (line 91), the
record is loaded, and it is persisted along the spec's create path (§4.3
create, step 5: `ConflictError` when the name already exists — the
persisting `create_or_update` is not part of the repository slice, so the
create path is modelled from the spec).  Returns the stored record and the
new store. -/
def post_pipeline (reg : List ConnectionSchema) (store : List ConnectionRecord)
    (n : String) (body : List (String × String)) (now : Nat) :
    Except ServiceError (ConnectionRecord × List ConnectionRecord) :=
  let data := aset body "name" n
  match connection_load reg data [] with
  | Except.error e => Except.error e
  | Except.ok c =>
    match store_get store c.name with
    | some _ => Except.error ServiceError.conflictError
    | none =>
      let stamped := { c with created_date := now, last_modified_date := now }
      Except.ok (stamped, store_put store stamped)

/-- `Connection.post` (connection.py lines 88–94): the serialised response
together with the new store. -/
def Connection_post (reg : List ConnectionSchema) (store : List ConnectionRecord)
    (n : String) (body : List (String × String)) (now : Nat) :
    Except ServiceError (List (String × String) × List ConnectionRecord) :=
  (post_pipeline reg store n body now).map (fun p => (to_dict p.1, p.2))

/-- `Connection.put` (connection.py lines 99–107) up to serialisation:
load the existing record — per the spec's update path (§4.3 step 1) the load
includes its current secret values (`ConnectionOperations.get` is not part
of the repository slice and is modelled from those words) — merge the body
as `params_override` into its serialised form (lines 102–104), then
overwrite the merged record's whole secret bucket with the existing one
(line 105, `connection._secrets = existing_connection._secrets`), and
persist along the spec's update path (§4.3 steps 5–6: `last_modified`
refreshed, `created` and untouched fields — including the advisory expiry —
kept). -/
def put_pipeline (reg : List ConnectionSchema) (store : List ConnectionRecord)
    (n : String) (body : List (String × String)) (now : Nat) :
    Except ServiceError (ConnectionRecord × List ConnectionRecord) :=
  match store_get store n with
  | none => Except.error ServiceError.notFoundError
  | some existing =>
    match connection_load reg (to_dict existing) body with
    | Except.error e => Except.error e
    | Except.ok c =>
      let merged :=
        { c with secret_values := existing.secret_values,
                 created_date := existing.created_date,
                 last_modified_date := now,
                 expiry_time := existing.expiry_time }
      Except.ok (merged, store_put store merged)

/-- `Connection.put` (connection.py lines 99–107): the serialised response
together with the new store. -/
def Connection_put (reg : List ConnectionSchema) (store : List ConnectionRecord)
    (n : String) (body : List (String × String)) (now : Nat) :
    Except ServiceError (List (String × String) × List ConnectionRecord) :=
  (put_pipeline reg store n body now).map (fun p => (to_dict p.1, p.2))

/-- `Connection.delete` (connection.py lines 111–113): delegate to the
operations layer's delete. -/
def Connection_delete (store : List ConnectionRecord) (n : String) :
    Except ServiceError (List ConnectionRecord) :=
  connection_delete store n

/-- `handle_connection_not_found_exception` (connection.py lines 51–54):
`ConnectionNotFoundError` maps to a 404 with the error message in the
body. -/
def handle_connection_not_found_exception (msg : String) :
    List (String × String) × Nat :=
  ([("error_message", msg)], 404)

/-! ## Spec catalog builder (embedded from connection.py lines 132–155) -/

/-- Whether `p` is an initial segment of the second list. -/
def starts_with : List Char → List Char → Bool
  | [], _ => true
  | _ :: _, [] => false
  | p :: ps, c :: cs => p == c && starts_with ps cs

/-- One fuelled pass of replacing every occurrence of `p` by `r`; the fuel
bounds the number of steps, each of which consumes at least one character. -/
def replace_from (p r : List Char) : Nat → List Char → List Char
  | _, [] => []
  | 0, s => s
  | fuel + 1, c :: cs =>
    if starts_with p (c :: cs) then
      r ++ replace_from p r fuel (List.drop p.length (c :: cs))
    else c :: replace_from p r fuel cs

/-- Python `str.replace` (all occurrences, left to right), as used by the
catalog builder on class names; Lean core's `String.replace` is equivalent
but is defined by well-founded recursion and does not evaluate inside the
kernel, so the embedding spells the scan out. -/
def string_replace (s pattern repl : String) : String :=
  if pattern.data = [] then s
  else ⟨replace_from pattern.data repl.data (s.data.length + 1) s.data⟩

/-- `hide_connection_fields` (connection.py line 133): internal-only fields
the catalog omits. -/
def hide_connection_fields : List String := ["module"]

/-- One entry of `connection_config_spec_model` (connection.py lines 34–41). -/
structure ConnectionConfigSpec where
  name : String
  optional : Bool
  default : Option String
  deriving Repr, DecidableEq

/-- One entry of `connection_spec_model` (connection.py lines 42–48). -/
structure ConnectionSpec where
  connection_type : String
  config_specs : List ConnectionConfigSpec
  deriving Repr, DecidableEq

/-- The per-field body of the catalog loop (connection.py lines 144–148):
`optional` is the field's `allow_none`; `default` is included only when the
field's default is truthy (Python `if field.default:`), and for the
discriminator field `type` it is the first allowed value — which in the
spec's model (§3) is the `type` field's own declared default, the type's
canonical discriminator value. -/
def config_of_field (f : FieldSpec) : ConnectionConfigSpec :=
  let d : Option String :=
    match f.default with
    | some s => if s = "" then none else some s
    | none => none
  { name := f.name, optional := f.allow_none,
    default := if f.name = "type" then f.default else d }

/-- `ConnectionSpecs.get` (connection.py lines 132–155): one entry per
registered schema (the reflection over `promptflow._sdk.schemas._connection`
is replaced by the spec-modelled registry, §4.1/§9), each entry named by the
class name with the `"Schema"` suffix stripped and carrying the non-hidden
fields' config specs. -/
def ConnectionSpecs_get (reg : List ConnectionSchema) : List ConnectionSpec :=
  reg.map (fun sch =>
    { connection_type := string_replace sch.class_name "Schema" ""
      config_specs :=
        (sch.fields.filter (fun f => decide (f.name ∉ hide_connection_fields))).map
          config_of_field })

/-! ## Well-formedness (the invariants of §3) -/

/-- The envelope keys that are not configuration fields and not the
discriminator. -/
def reserved_keys : List String :=
  ["name", "created_date", "last_modified_date", "expiry_time"]

/-- The invariants of a Connection Type Schema (§3): unique field names, a
non-secret discriminator field `type` whose default is the type's canonical
discriminator value, and no field shadowing an envelope key. -/
def WFSchema (sch : ConnectionSchema) : Prop :=
  (sch.fields.map FieldSpec.name).Nodup ∧
  (∃ f ∈ sch.fields, f.name = "type" ∧ f.is_secret = false ∧
      f.default = some sch.type_name) ∧
  (∀ f ∈ sch.fields, f.name ∉ reserved_keys) ∧
  sch.type_name ≠ ""

/-- The invariants of a Connection Record against its type schema (§3): the
two buckets have unique, disjoint keys, and every key is a declared field of
the schema sitting in the bucket its secrecy prescribes (hence never the
discriminator and never an envelope key). -/
def WFRecordAux (sch : ConnectionSchema) (r : ConnectionRecord) : Prop :=
  (akeys r.plain_values).Nodup ∧
  (akeys r.secret_values).Nodup ∧
  (∀ k ∈ akeys r.plain_values, k ∉ akeys r.secret_values) ∧
  (∀ k ∈ akeys r.plain_values,
      k ∉ envelope_keys ∧
      ∃ f ∈ sch.fields, f.name = k ∧ f.is_secret = false) ∧
  (∀ k ∈ akeys r.secret_values,
      k ∉ envelope_keys ∧
      ∃ f ∈ sch.fields, f.name = k ∧ f.is_secret = true)

/-- The store invariant: names are primary keys (§3). -/
def WFStore (store : List ConnectionRecord) : Prop :=
  (store.map ConnectionRecord.name).Nodup

instance {ε α : Type} [DecidableEq ε] [DecidableEq α] : DecidableEq (Except ε α)
  | Except.error e, Except.error f =>
    match decEq e f with
    | isTrue h => isTrue (h ▸ rfl)
    | isFalse h => isFalse (fun hh => h (Except.error.inj hh))
  | Except.error _, Except.ok _ => isFalse (fun hh => Except.noConfusion hh)
  | Except.ok _, Except.error _ => isFalse (fun hh => Except.noConfusion hh)
  | Except.ok a, Except.ok b =>
    match decEq a b with
    | isTrue h => isTrue (h ▸ rfl)
    | isFalse h => isFalse (fun hh => h (Except.ok.inj hh))

instance (sch : ConnectionSchema) : Decidable (WFSchema sch) := by
  unfold WFSchema
  infer_instance

instance (sch : ConnectionSchema) (r : ConnectionRecord) :
    Decidable (WFRecordAux sch r) := by
  unfold WFRecordAux
  infer_instance

instance (store : List ConnectionRecord) : Decidable (WFStore store) := by
  unfold WFStore
  infer_instance

/-! ## A sample registry and store (used by witnesses) -/

/-- A small connection type for concrete witnesses: a discriminator, the
internal `module` field, one plain field and one secret field. -/
def sample_fields : List FieldSpec :=
  [ { name := "type", is_secret := false, allow_none := false, default := some "custom" },
    { name := "module", is_secret := false, allow_none := false, default := some "m" },
    { name := "api_base", is_secret := false, allow_none := true, default := none },
    { name := "api_key", is_secret := true, allow_none := true, default := none } ]

/-- A sample schema for witnesses. -/
def sample_schema : ConnectionSchema :=
  { class_name := "CustomConnectionSchema", type_name := "custom",
    fields := sample_fields }

/-- A one-type registry for witnesses. -/
def sample_registry : List ConnectionSchema := [sample_schema]

/-- A sample stored record with one plain and one secret value. -/
def sample_record : ConnectionRecord :=
  { name := "c1", type := "custom",
    plain_values := [("api_base", "x")],
    secret_values := [("api_key", "abc")],
    created_date := 1, last_modified_date := 1, expiry_time := none }

/-- A one-record store for witnesses. -/
def sample_store : List ConnectionRecord := [sample_record]

/-! ## Association-list lemmas -/

/-- First-some choice on options (the shadowing order of a lookup across an
appended dictionary). -/
def oor : Option String → Option String → Option String
  | some v, _ => some v
  | none, b => b

theorem oor_none_right (a : Option String) : oor a none = a := by
  cases a <;> rfl

theorem akeys_cons (kv : String × String) (l : List (String × String)) :
    akeys (kv :: l) = kv.1 :: akeys l := rfl

theorem mem_akeys {l : List (String × String)} {k : String} :
    k ∈ akeys l ↔ ∃ v, (k, v) ∈ l := by
  simp [akeys]

theorem alookup_eq_none_of_not_mem {l : List (String × String)} {k : String}
    (h : k ∉ akeys l) : alookup l k = none := by
  induction l with
  | nil => rfl
  | cons hd rest ih =>
    obtain ⟨ka, va⟩ := hd
    rw [akeys_cons, List.mem_cons] at h
    push_neg at h
    rw [alookup, if_neg (fun hh => h.1 hh.symm)]
    exact ih h.2

theorem alookup_of_mem_nodup {l : List (String × String)} {k : String} {v : String}
    (hnd : (akeys l).Nodup) (hm : (k, v) ∈ l) : alookup l k = some v := by
  induction l with
  | nil => cases hm
  | cons hd rest ih =>
    obtain ⟨ka, va⟩ := hd
    rw [akeys_cons, List.nodup_cons] at hnd
    rcases List.mem_cons.mp hm with h | h
    · cases h
      rw [alookup, if_pos rfl]
    · have hk : ka ≠ k := by
        intro he
        subst he
        exact hnd.1 (mem_akeys.mpr ⟨v, h⟩)
      rw [alookup, if_neg hk]
      exact ih hnd.2 h

theorem mem_of_alookup_eq_some {l : List (String × String)} {k : String} {v : String}
    (h : alookup l k = some v) : (k, v) ∈ l := by
  induction l with
  | nil => cases h
  | cons hd rest ih =>
    obtain ⟨ka, va⟩ := hd
    rw [alookup] at h
    by_cases hk : ka = k
    · rw [if_pos hk] at h
      cases h
      subst hk
      exact List.mem_cons_self _ _
    · rw [if_neg hk] at h
      exact List.mem_cons_of_mem _ (ih h)

theorem alookup_aset_self (l : List (String × String)) (k v : String) :
    alookup (aset l k v) k = some v := by
  induction l with
  | nil => rw [aset, alookup, if_pos rfl]
  | cons hd rest ih =>
    obtain ⟨ka, va⟩ := hd
    by_cases h : ka = k
    · rw [aset, if_pos h, alookup, if_pos rfl]
    · rw [aset, if_neg h, alookup, if_neg h]
      exact ih

theorem alookup_aset_ne (l : List (String × String)) (k v : String) {k' : String}
    (h : k' ≠ k) : alookup (aset l k v) k' = alookup l k' := by
  induction l with
  | nil =>
    show alookup [(k, v)] k' = none
    rw [alookup, if_neg (fun hh => h hh.symm)]
    rfl
  | cons hd rest ih =>
    obtain ⟨ka, va⟩ := hd
    by_cases hk : ka = k
    · subst hk
      rw [aset, if_pos rfl, alookup, alookup,
        if_neg (fun hh => h hh.symm), if_neg (fun hh => h hh.symm)]
    · rw [aset, if_neg hk, alookup, alookup]
      by_cases hk' : ka = k'
      · rw [if_pos hk', if_pos hk']
      · rw [if_neg hk', if_neg hk']
        exact ih

theorem merge_overrides_nil (data : List (String × String)) :
    merge_overrides data [] = data := rfl

theorem merge_overrides_cons (data : List (String × String)) (kv : String × String)
    (rest : List (String × String)) :
    merge_overrides data (kv :: rest) = merge_overrides (aset data kv.1 kv.2) rest := rfl

theorem alookup_merge_not_mem {ov : List (String × String)} {k : String}
    (h : k ∉ akeys ov) (data : List (String × String)) :
    alookup (merge_overrides data ov) k = alookup data k := by
  induction ov generalizing data with
  | nil => rfl
  | cons hd rest ih =>
    obtain ⟨ka, va⟩ := hd
    rw [akeys_cons, List.mem_cons] at h
    push_neg at h
    rw [merge_overrides_cons, ih h.2]
    exact alookup_aset_ne data ka va h.1

theorem alookup_merge_mem {ov : List (String × String)} {k v : String}
    (hnd : (akeys ov).Nodup) (hm : (k, v) ∈ ov) (data : List (String × String)) :
    alookup (merge_overrides data ov) k = some v := by
  induction ov generalizing data with
  | nil => cases hm
  | cons hd rest ih =>
    obtain ⟨ka, va⟩ := hd
    rw [akeys_cons, List.nodup_cons] at hnd
    rcases List.mem_cons.mp hm with h | h
    · cases h
      rw [merge_overrides_cons, alookup_merge_not_mem hnd.1 _]
      exact alookup_aset_self data k v
    · exact ih hnd.2 h _

theorem alookup_filter_key (p : String → Bool) {l : List (String × String)}
    {k : String} (hp : p k = true) :
    alookup (l.filter (fun kv => p kv.1)) k = alookup l k := by
  induction l with
  | nil => rfl
  | cons hd rest ih =>
    obtain ⟨ka, va⟩ := hd
    by_cases hka : ka = k
    · subst hka
      rw [List.filter_cons_of_pos (by simpa using hp), alookup, if_pos rfl,
        alookup, if_pos rfl]
    · cases hpk : p ka with
      | true =>
        rw [List.filter_cons_of_pos (by simpa using hpk), alookup, if_neg hka,
          alookup, if_neg hka]
        exact ih
      | false =>
        rw [List.filter_cons_of_neg (by simpa using hpk), alookup, if_neg hka]
        exact ih

theorem alookup_filter_envelope (l : List (String × String)) {k : String}
    (hk : k ∉ envelope_keys) :
    alookup (l.filter (fun kv => decide (kv.1 ∉ envelope_keys))) k =
      alookup l k :=
  alookup_filter_key (fun x => decide (x ∉ envelope_keys)) (decide_eq_true hk)

theorem alookup_append (l₁ l₂ : List (String × String)) (k : String) :
    alookup (l₁ ++ l₂) k = oor (alookup l₁ k) (alookup l₂ k) := by
  induction l₁ with
  | nil => rfl
  | cons hd rest ih =>
    obtain ⟨ka, va⟩ := hd
    by_cases h : ka = k
    · rw [List.cons_append, alookup, if_pos h, alookup, if_pos h]
      rfl
    · rw [List.cons_append, alookup, if_neg h, alookup, if_neg h]
      exact ih

/-! ## Classification lemmas -/

theorem classify_fields_cons_inv {sch : ConnectionSchema} {ka va : String}
    {rest ps ss : List (String × String)}
    (hc : classify_fields sch ((ka, va) :: rest) = Except.ok (ps, ss)) :
    ∃ fa ps' ss', field_of sch ka = some fa ∧
      classify_fields sch rest = Except.ok (ps', ss') ∧
      ((fa.is_secret = true ∧ ps = ps' ∧ ss = (ka, va) :: ss') ∨
       (fa.is_secret = false ∧ ps = (ka, va) :: ps' ∧ ss = ss')) := by
  cases hfa : field_of sch ka with
  | none =>
    rw [classify_fields] at hc
    simp only [hfa] at hc
    cases hc
  | some fa =>
    cases hrec : classify_fields sch rest with
    | error e =>
      rw [classify_fields] at hc
      simp only [hfa, hrec] at hc
      cases hc
    | ok pr =>
      obtain ⟨ps', ss'⟩ := pr
      rw [classify_fields] at hc
      simp only [hfa, hrec] at hc
      cases hsa : fa.is_secret with
      | true =>
        rw [if_pos hsa] at hc
        simp only [Except.ok.injEq, Prod.mk.injEq] at hc
        obtain ⟨rfl, rfl⟩ := hc
        exact ⟨fa, _, _, rfl, rfl, Or.inl ⟨hsa, rfl, rfl⟩⟩
      | false =>
        rw [if_neg (by simp [hsa])] at hc
        simp only [Except.ok.injEq, Prod.mk.injEq] at hc
        obtain ⟨rfl, rfl⟩ := hc
        exact ⟨fa, _, _, rfl, rfl, Or.inr ⟨hsa, rfl, rfl⟩⟩

theorem classify_fields_undeclared {sch : ConnectionSchema}
    {l ps ss : List (String × String)} {k : String}
    (hc : classify_fields sch l = Except.ok (ps, ss))
    (hf : field_of sch k = none) :
    alookup ps k = none ∧ alookup ss k = none := by
  induction l generalizing ps ss with
  | nil =>
    cases hc
    exact ⟨rfl, rfl⟩
  | cons hd rest ih =>
    obtain ⟨ka, va⟩ := hd
    obtain ⟨fa, ps', ss', hfa, hrec, hcase⟩ := classify_fields_cons_inv hc
    have hk : ka ≠ k := by
      intro he
      subst he
      rw [hfa] at hf
      cases hf
    obtain ⟨h1, h2⟩ := ih hrec
    rcases hcase with ⟨_, rfl, rfl⟩ | ⟨_, rfl, rfl⟩
    · exact ⟨h1, by rw [alookup, if_neg hk]; exact h2⟩
    · exact ⟨by rw [alookup, if_neg hk]; exact h1, h2⟩

theorem classify_fields_plain {sch : ConnectionSchema}
    {l ps ss : List (String × String)} {k : String} {f : FieldSpec}
    (hc : classify_fields sch l = Except.ok (ps, ss))
    (hf : field_of sch k = some f) (hsec : f.is_secret = false) :
    alookup ps k = alookup l k ∧ alookup ss k = none := by
  induction l generalizing ps ss with
  | nil =>
    cases hc
    exact ⟨rfl, rfl⟩
  | cons hd rest ih =>
    obtain ⟨ka, va⟩ := hd
    obtain ⟨fa, ps', ss', hfa, hrec, hcase⟩ := classify_fields_cons_inv hc
    obtain ⟨h1, h2⟩ := ih hrec
    by_cases hk : ka = k
    · subst hk
      rw [hfa] at hf
      injection hf with hf
      subst hf
      rcases hcase with ⟨hs, rfl, rfl⟩ | ⟨_, rfl, rfl⟩
      · rw [hs] at hsec
        cases hsec
      · constructor
        · rw [alookup, if_pos rfl, alookup, if_pos rfl]
        · exact h2
    · rcases hcase with ⟨_, rfl, rfl⟩ | ⟨_, rfl, rfl⟩
      · constructor
        · rw [h1, alookup, if_neg hk]
        · rw [alookup, if_neg hk]
          exact h2
      · constructor
        · rw [alookup, if_neg hk, h1, alookup, if_neg hk]
        · exact h2

theorem classify_fields_secret {sch : ConnectionSchema}
    {l ps ss : List (String × String)} {k : String} {f : FieldSpec}
    (hc : classify_fields sch l = Except.ok (ps, ss))
    (hf : field_of sch k = some f) (hsec : f.is_secret = true) :
    alookup ss k = alookup l k ∧ alookup ps k = none := by
  induction l generalizing ps ss with
  | nil =>
    cases hc
    exact ⟨rfl, rfl⟩
  | cons hd rest ih =>
    obtain ⟨ka, va⟩ := hd
    obtain ⟨fa, ps', ss', hfa, hrec, hcase⟩ := classify_fields_cons_inv hc
    obtain ⟨h1, h2⟩ := ih hrec
    by_cases hk : ka = k
    · subst hk
      rw [hfa] at hf
      injection hf with hf
      subst hf
      rcases hcase with ⟨_, rfl, rfl⟩ | ⟨hs, rfl, rfl⟩
      · constructor
        · rw [alookup, if_pos rfl, alookup, if_pos rfl]
        · exact h2
      · rw [hs] at hsec
        cases hsec
    · rcases hcase with ⟨_, rfl, rfl⟩ | ⟨_, rfl, rfl⟩
      · constructor
        · rw [alookup, if_neg hk, h1, alookup, if_neg hk]
        · exact h2
      · constructor
        · rw [h1, alookup, if_neg hk]
        · rw [alookup, if_neg hk]
          exact h2

/-! ## Store lemmas -/

theorem store_get_of_mem {store : List ConnectionRecord} {r : ConnectionRecord}
    (hwf : WFStore store) (hm : r ∈ store) : store_get store r.name = some r := by
  induction store with
  | nil => cases hm
  | cons hd rest ih =>
    rw [WFStore, List.map_cons, List.nodup_cons] at hwf
    rcases List.mem_cons.mp hm with h | h
    · subst h
      rw [store_get, if_pos rfl]
    · have hk : hd.name ≠ r.name := by
        intro he
        exact hwf.1 (he ▸ List.mem_map.mpr ⟨r, h, rfl⟩)
      rw [store_get, if_neg hk]
      exact ih hwf.2 h

theorem store_get_append_self {store : List ConnectionRecord} {c : ConnectionRecord}
    (h : store_get store c.name = none) :
    store_get (store ++ [c]) c.name = some c := by
  induction store with
  | nil =>
    rw [List.nil_append, store_get, if_pos rfl]
  | cons hd rest ih =>
    rw [store_get] at h
    by_cases hh : hd.name = c.name
    · rw [if_pos hh] at h
      cases h
    · rw [if_neg hh] at h
      rw [List.cons_append, store_get, if_neg hh]
      exact ih h

theorem store_get_delete_self (store : List ConnectionRecord) (n : String) :
    store_get (store_delete store n) n = none := by
  induction store with
  | nil => rfl
  | cons hd rest ih =>
    by_cases h : hd.name = n
    · rw [store_delete, List.filter_cons_of_neg (by simp [h])]
      exact ih
    · rw [store_delete, List.filter_cons_of_pos (by simp [h]), store_get, if_neg h]
      exact ih

theorem mem_store_delete_of_ne {store : List ConnectionRecord} {n : String}
    {x : ConnectionRecord} (hx : x ∈ store) (hne : x.name ≠ n) :
    x ∈ store_delete store n :=
  List.mem_filter.mpr ⟨hx, by simp [hne]⟩

/-! ## Wire-shape lemmas -/

theorem alookup_nil (k : String) : alookup [] k = none := rfl

theorem oor_none_left (b : Option String) : oor none b = b := rfl

theorem alookup_expiry_part {k : String} (he : k ≠ "expiry_time") (o : Option Nat) :
    alookup (expiry_part o) k = none := by
  cases o with
  | none => rfl
  | some e =>
    rw [expiry_part, alookup, if_neg (fun hh => he hh.symm)]
    rfl

theorem alookup_to_dict {r : ConnectionRecord} {k : String}
    (h : k ∉ envelope_keys) :
    alookup (to_dict r) k =
      oor (alookup r.plain_values k) (alookup r.secret_values k) := by
  rw [envelope_keys] at h
  simp only [List.mem_cons, List.not_mem_nil, or_false] at h
  push_neg at h
  obtain ⟨hn, ht, hc, hl, he⟩ := h
  rw [to_dict]
  rw [List.append_assoc, List.append_assoc, List.append_assoc]
  rw [List.cons_append, List.cons_append, List.nil_append]
  rw [alookup, if_neg (fun hh => hn hh.symm), alookup, if_neg (fun hh => ht hh.symm)]
  rw [alookup_append, alookup_append, alookup_append]
  rw [alookup, if_neg (fun hh => hc hh.symm), alookup, if_neg (fun hh => hl hh.symm)]
  rw [alookup_nil, alookup_expiry_part he, oor_none_left, oor_none_right]

theorem alookup_marshal (model : List String) (d : List (String × String))
    (k : String) :
    alookup (marshal model d) k = if k ∈ model then alookup d k else none := by
  rw [marshal]
  induction model with
  | nil =>
    rw [List.filterMap_nil, if_neg (List.not_mem_nil k)]
    rfl
  | cons m rest ih =>
    rw [List.filterMap_cons]
    cases hm : alookup d m with
    | none =>
      simp only [Option.map_none']
      rw [ih]
      by_cases hk : k = m
      · subst hk
        rw [if_pos (List.mem_cons_self _ _), hm]
        by_cases hk' : k ∈ rest
        · rw [if_pos hk']
        · rw [if_neg hk']
      · by_cases hk' : k ∈ rest
        · rw [if_pos hk', if_pos (List.mem_cons_of_mem _ hk')]
        · rw [if_neg hk', if_neg (by simp [hk, hk'])]
    | some v =>
      simp only [Option.map_some']
      by_cases hk : k = m
      · subst hk
        rw [alookup, if_pos rfl, if_pos (List.mem_cons_self _ _), hm]
      · rw [alookup, if_neg (fun hh => hk hh.symm), ih]
        by_cases hk' : k ∈ rest
        · rw [if_pos hk', if_pos (List.mem_cons_of_mem _ hk')]
        · rw [if_neg hk', if_neg (by simp [hk, hk'])]

/-! ## Pipeline inversion lemmas -/

theorem connection_load_inv {reg : List ConnectionSchema}
    {data overrides : List (String × String)} {c : ConnectionRecord}
    (h : connection_load reg data overrides = Except.ok c) :
    ∃ sch ps ss,
      get_schema reg c.type = some sch ∧
      alookup (merge_overrides data overrides) "name" = some c.name ∧
      alookup (merge_overrides data overrides) "type" = some c.type ∧
      classify_fields sch
        ((merge_overrides data overrides).filter
          (fun kv => decide (kv.1 ∉ envelope_keys))) = Except.ok (ps, ss) ∧
      c.plain_values = ps ∧ c.secret_values = ss := by
  simp only [connection_load] at h
  cases hn : alookup (merge_overrides data overrides) "name" with
  | none =>
    cases ht : alookup (merge_overrides data overrides) "type" with
    | none => simp only [hn, ht] at h; exact Except.noConfusion h
    | some ty => simp only [hn, ht] at h; exact Except.noConfusion h
  | some nm =>
    cases ht : alookup (merge_overrides data overrides) "type" with
    | none => simp only [hn, ht] at h; exact Except.noConfusion h
    | some ty =>
      simp only [hn, ht] at h
      cases hs : get_schema reg ty with
      | none =>
        simp only [hs] at h
        exact Except.noConfusion h
      | some sch =>
        simp only [hs] at h
        cases hcf : classify_fields sch
            ((merge_overrides data overrides).filter
              (fun kv => decide (kv.1 ∉ envelope_keys))) with
        | error e => simp only [hcf] at h; exact Except.noConfusion h
        | ok pr =>
          obtain ⟨ps, ss⟩ := pr
          simp only [hcf] at h
          cases hmr : missing_required sch
              ("type" :: akeys ((merge_overrides data overrides).filter
                (fun kv => decide (kv.1 ∉ envelope_keys)))) with
          | nil =>
            simp only [hmr] at h
            injection h with h
            subst h
            exact ⟨sch, ps, ss, hs, rfl, rfl, hcf, rfl, rfl⟩
          | cons m ms => simp only [hmr] at h; exact Except.noConfusion h

theorem put_pipeline_inv {reg : List ConnectionSchema} {store : List ConnectionRecord}
    {n : String} {body : List (String × String)} {now : Nat}
    {r' : ConnectionRecord} {store' : List ConnectionRecord}
    (h : put_pipeline reg store n body now = Except.ok (r', store')) :
    ∃ existing c, store_get store n = some existing ∧
      connection_load reg (to_dict existing) body = Except.ok c ∧
      r' = { c with secret_values := existing.secret_values,
                    created_date := existing.created_date,
                    last_modified_date := now,
                    expiry_time := existing.expiry_time } ∧
      store' = store_put store r' := by
  simp only [put_pipeline] at h
  cases hg : store_get store n with
  | none => simp only [hg] at h; exact Except.noConfusion h
  | some existing =>
    simp only [hg] at h
    cases hl : connection_load reg (to_dict existing) body with
    | error e => simp only [hl] at h; exact Except.noConfusion h
    | ok c =>
      simp only [hl] at h
      injection h with h
      obtain ⟨h1, h2⟩ := Prod.mk.injEq .. ▸ h
      exact ⟨existing, c, rfl, hl, h1.symm, by rw [h2.symm, h1]⟩

theorem post_pipeline_inv {reg : List ConnectionSchema} {store : List ConnectionRecord}
    {n : String} {body : List (String × String)} {now : Nat}
    {r' : ConnectionRecord} {store' : List ConnectionRecord}
    (h : post_pipeline reg store n body now = Except.ok (r', store')) :
    ∃ c, connection_load reg (aset body "name" n) [] = Except.ok c ∧
      store_get store c.name = none ∧
      r' = { c with created_date := now, last_modified_date := now } ∧
      store' = store_put store r' := by
  simp only [post_pipeline] at h
  cases hl : connection_load reg (aset body "name" n) [] with
  | error e => simp only [hl] at h; exact Except.noConfusion h
  | ok c =>
    simp only [hl] at h
    cases hg : store_get store c.name with
    | some x => simp only [hg] at h; exact Except.noConfusion h
    | none =>
      simp only [hg] at h
      injection h with h
      obtain ⟨h1, h2⟩ := Prod.mk.injEq .. ▸ h
      exact ⟨c, rfl, hg, h1.symm, by rw [h2.symm, h1]⟩

/-! ## Schema lookup lemmas -/

theorem name_unique {l : List FieldSpec} {f g : FieldSpec}
    (hnd : (l.map FieldSpec.name).Nodup) (hf : f ∈ l) (hg : g ∈ l)
    (hname : f.name = g.name) : f = g := by
  induction l with
  | nil => cases hf
  | cons hd rest ih =>
    rw [List.map_cons, List.nodup_cons] at hnd
    rcases List.mem_cons.mp hf with rfl | hf'
    · rcases List.mem_cons.mp hg with rfl | hg'
      · rfl
      · exact absurd (hname ▸ List.mem_map.mpr ⟨g, hg', rfl⟩) hnd.1
    · rcases List.mem_cons.mp hg with rfl | hg'
      · exact absurd (hname ▸ List.mem_map.mpr ⟨f, hf', rfl⟩) hnd.1
      · exact ih hnd.2 hf' hg'

theorem find_name_of_mem {l : List FieldSpec} {f : FieldSpec} {k : String}
    (hnd : (l.map FieldSpec.name).Nodup) (hf : f ∈ l) (hk : f.name = k) :
    l.find? (fun g => decide (g.name = k)) = some f := by
  induction l with
  | nil => cases hf
  | cons hd rest ih =>
    rw [List.map_cons, List.nodup_cons] at hnd
    rcases List.mem_cons.mp hf with rfl | hf'
    · rw [List.find?_cons_of_pos _ (by simp [hk])]
    · have hne : hd.name ≠ k := by
        intro he
        exact hnd.1 ((he.trans hk.symm) ▸ List.mem_map.mpr ⟨f, hf', rfl⟩)
      rw [List.find?_cons_of_neg _ (by simp [hne])]
      exact ih hnd.2 hf'

theorem field_of_eq_of_mem {sch : ConnectionSchema} {f : FieldSpec} {k : String}
    (hnd : (sch.fields.map FieldSpec.name).Nodup) (hf : f ∈ sch.fields)
    (hk : f.name = k) : field_of sch k = some f :=
  find_name_of_mem hnd hf hk

theorem field_of_mem {sch : ConnectionSchema} {f : FieldSpec} {k : String}
    (h : field_of sch k = some f) : f ∈ sch.fields ∧ f.name = k := by
  refine ⟨List.mem_of_find?_eq_some h, ?_⟩
  have := List.find?_some h
  simpa using this

/-! ## Wire-shape lookups on `to_dict` -/

theorem alookup_to_dict_name (r : ConnectionRecord) :
    alookup (to_dict r) "name" = some r.name := rfl

theorem alookup_to_dict_type (r : ConnectionRecord) :
    alookup (to_dict r) "type" = some r.type := rfl

theorem alookup_to_dict_created {r : ConnectionRecord}
    (hp : "created_date" ∉ akeys r.plain_values)
    (hs : "created_date" ∉ akeys r.secret_values) :
    alookup (to_dict r) "created_date" = some (toString r.created_date) := by
  rw [to_dict]
  rw [List.append_assoc, List.append_assoc, List.append_assoc]
  rw [List.cons_append, List.cons_append, List.nil_append]
  rw [alookup, if_neg (by decide), alookup, if_neg (by decide)]
  rw [alookup_append, alookup_eq_none_of_not_mem hp, oor_none_left]
  rw [alookup_append, alookup_eq_none_of_not_mem hs, oor_none_left]
  rw [alookup_append, alookup, if_pos rfl]
  rfl

theorem alookup_to_dict_modified {r : ConnectionRecord}
    (hp : "last_modified_date" ∉ akeys r.plain_values)
    (hs : "last_modified_date" ∉ akeys r.secret_values) :
    alookup (to_dict r) "last_modified_date" =
      some (toString r.last_modified_date) := by
  rw [to_dict]
  rw [List.append_assoc, List.append_assoc, List.append_assoc]
  rw [List.cons_append, List.cons_append, List.nil_append]
  rw [alookup, if_neg (by decide), alookup, if_neg (by decide)]
  rw [alookup_append, alookup_eq_none_of_not_mem hp, oor_none_left]
  rw [alookup_append, alookup_eq_none_of_not_mem hs, oor_none_left]
  rw [alookup_append, alookup, if_neg (by decide), alookup, if_pos rfl]
  rfl

theorem alookup_to_dict_expiry {r : ConnectionRecord}
    (hp : "expiry_time" ∉ akeys r.plain_values)
    (hs : "expiry_time" ∉ akeys r.secret_values) :
    alookup (to_dict r) "expiry_time" =
      (r.expiry_time.map fun e => toString e) := by
  rw [to_dict]
  rw [List.append_assoc, List.append_assoc, List.append_assoc]
  rw [List.cons_append, List.cons_append, List.nil_append]
  rw [alookup, if_neg (by decide), alookup, if_neg (by decide)]
  rw [alookup_append, alookup_eq_none_of_not_mem hp, oor_none_left]
  rw [alookup_append, alookup_eq_none_of_not_mem hs, oor_none_left]
  rw [alookup_append, alookup, if_neg (by decide), alookup, if_neg (by decide)]
  rw [alookup_nil, oor_none_left]
  cases r.expiry_time with
  | none => rfl
  | some e =>
    rw [expiry_part, alookup, if_pos rfl]
    rfl

/-! ## Concrete pipeline results used by witnesses -/

/-- The record produced by updating `sample_record` with a plain-field
override at time 5. -/
def c2_result : ConnectionRecord :=
  { name := "c1", type := "custom", plain_values := [("api_base", "y")],
    secret_values := [("api_key", "abc")], created_date := 1,
    last_modified_date := 5, expiry_time := none }

/-- The record produced by creating `"c2"` at time 3 from a body that tries
to smuggle a different name. -/
def c10_result : ConnectionRecord :=
  { name := "c2", type := "custom", plain_values := [],
    secret_values := [("api_key", "s")], created_date := 3,
    last_modified_date := 3, expiry_time := none }

/-! ## Claims -/

/-- **C2**: for every existing record whose secret bucket holds `(k, v)`
(e.g. `api_key = "abc"`) and every update whose body omits `k`, the record
resulting from the update retains the previously stored secret value
verbatim — its secret bucket is exactly the existing one, so `(k, v)` is
still present and a lookup still returns `v`. -/
theorem update_preserves_omitted_secret
    (reg : List ConnectionSchema) (store : List ConnectionRecord)
    (n : String) (body : List (String × String)) (now : Nat)
    (r r' : ConnectionRecord) (store' : List ConnectionRecord) (k v : String)
    (hget : store_get store n = some r)
    (hnd : (akeys r.secret_values).Nodup)
    (hkv : (k, v) ∈ r.secret_values)
    (homit : k ∉ akeys body)
    (hput : put_pipeline reg store n body now = Except.ok (r', store')) :
    r'.secret_values = r.secret_values ∧ (k, v) ∈ r'.secret_values ∧
      alookup r'.secret_values k = some v := by
  obtain ⟨existing, c, hg, hl, hr, hs⟩ := put_pipeline_inv hput
  rw [hget] at hg
  injection hg with hg
  subst hg
  subst hr
  exact ⟨rfl, hkv, alookup_of_mem_nodup hnd hkv⟩

/-- Witness for C2: updating `sample_record` (secret `api_key = "abc"`) with
a body that only overrides `api_base` keeps the secret. -/
theorem update_preserves_omitted_secret_witness :
    c2_result.secret_values = sample_record.secret_values ∧
      ("api_key", "abc") ∈ c2_result.secret_values ∧
      alookup c2_result.secret_values "api_key" = some "abc" :=
  update_preserves_omitted_secret sample_registry sample_store "c1"
    [("api_base", "y")] 5 sample_record c2_result [c2_result] "api_key" "abc"
    (by decide) (by decide) (by decide) (by decide) (by decide)

/-- **C4**: a create call addressed at a name that already has a stored
record — with a body that itself loads fine — fails with `ConflictError`;
the endpoint returns the error and hence no modified store. -/
theorem post_conflict_on_existing
    (reg : List ConnectionSchema) (store : List ConnectionRecord)
    (n : String) (body : List (String × String)) (now : Nat)
    (r c : ConnectionRecord)
    (hexist : store_get store n = some r)
    (hload : connection_load reg (aset body "name" n) [] = Except.ok c) :
    Connection_post reg store n body now =
      Except.error ServiceError.conflictError := by
  have hcname : c.name = n := by
    obtain ⟨sch, ps, ss, _, hn2, _, _, _, _⟩ := connection_load_inv hload
    rw [merge_overrides_nil, alookup_aset_self] at hn2
    injection hn2 with h
    exact h.symm
  rw [Connection_post]
  suffices hp : post_pipeline reg store n body now =
      Except.error ServiceError.conflictError by
    rw [hp]
    rfl
  have hsg : store_get store c.name = some r := by
    rw [hcname]
    exact hexist
  simp only [post_pipeline, hload, hsg]

/-- Witness for C4: re-creating the already stored `"c1"` conflicts. -/
theorem post_conflict_on_existing_witness :
    Connection_post sample_registry sample_store "c1" [("type", "custom")] 3 =
      Except.error ServiceError.conflictError :=
  post_conflict_on_existing sample_registry sample_store "c1"
    [("type", "custom")] 3 sample_record
    { name := "c1", type := "custom", plain_values := [], secret_values := [],
      created_date := 0, last_modified_date := 0, expiry_time := none }
    (by decide) (by decide)

/-- **C5**: an update addressed at a name with no stored record fails with
`NotFoundError` for every body whatsoever — the lookup short-circuits before
any validation or write — and the error handler maps that error to a 404
response. -/
theorem put_not_found
    (reg : List ConnectionSchema) (store : List ConnectionRecord)
    (n : String) (body : List (String × String)) (now : Nat)
    (habsent : store_get store n = none) :
    Connection_put reg store n body now =
        Except.error ServiceError.notFoundError ∧
      ∀ msg, handle_connection_not_found_exception msg =
        ([("error_message", msg)], 404) := by
  constructor
  · rw [Connection_put]
    suffices hp : put_pipeline reg store n body now =
        Except.error ServiceError.notFoundError by
      rw [hp]
      rfl
    simp only [put_pipeline, habsent]
  · intro msg
    rfl

/-- Witness for C5: updating a missing name with an arbitrary (even
invalid) body yields `NotFoundError`. -/
theorem put_not_found_witness :
    Connection_put sample_registry [] "missing" [("junk", "1")] 7 =
      Except.error ServiceError.notFoundError :=
  (put_not_found sample_registry [] "missing" [("junk", "1")] 7 (by decide)).1

/-- **C8**: delete is strict — on a name with no stored record it fails with
`NotFoundError`; on an existing name it removes exactly that record from
the store and keeps every other record. -/
theorem delete_strict
    (store : List ConnectionRecord) (n : String) (r : ConnectionRecord) :
    (store_get store n = none →
      Connection_delete store n = Except.error ServiceError.notFoundError) ∧
    (WFStore store → r ∈ store → r.name = n →
      Connection_delete store n = Except.ok (store_delete store n) ∧
      store_get (store_delete store n) n = none ∧
      ∀ x ∈ store, x.name ≠ n → x ∈ store_delete store n) := by
  constructor
  · intro h
    simp only [Connection_delete, connection_delete, h]
  · intro hwf hr hn
    have hsg : store_get store n = some r := hn ▸ store_get_of_mem hwf hr
    refine ⟨?_, store_get_delete_self store n,
      fun x hx hne => mem_store_delete_of_ne hx hne⟩
    simp only [Connection_delete, connection_delete, hsg]

/-- Witness for C8: deleting the stored `"c1"` succeeds and removes it. -/
theorem delete_strict_witness :
    Connection_delete sample_store "c1" =
      Except.ok (store_delete sample_store "c1") :=
  ((delete_strict sample_store "c1" sample_record).2
    (by decide) (by decide) rfl).1

/-- **C9**: the list endpoint queries the store for up to 50 records when no
`max_results` is supplied (invoking it without the parameter is the same as
invoking it with 50), and for up to the supplied number otherwise. -/
theorem list_max_results_default
    (store : List ConnectionRecord) (ar : Option Bool) (m : Nat) :
    ConnectionList_get store none ar = ConnectionList_get store (some 50) ar ∧
    (connection_list store m false).length ≤ m ∧
    ConnectionList_get store (some m) ar =
      ((connection_list store m (ar.getD false)).map to_dict).map
        (marshal list_connection_field) := by
  refine ⟨rfl, ?_, rfl⟩
  rw [connection_list, if_neg Bool.false_ne_true, List.length_map,
    List.length_take]
  exact min_le_left _ _

/-- **C10**: the name of a record created through the create endpoint is the
URL path name — any `"name"` entry of the body is overwritten before the
record is loaded — and the record is stored under that name. -/
theorem post_name_from_path
    (reg : List ConnectionSchema) (store : List ConnectionRecord)
    (n : String) (body : List (String × String)) (now : Nat)
    (r' : ConnectionRecord) (store' : List ConnectionRecord)
    (hpost : post_pipeline reg store n body now = Except.ok (r', store')) :
    r'.name = n ∧ store_get store' n = some r' := by
  obtain ⟨c, hl, habsent, hr, hs⟩ := post_pipeline_inv hpost
  obtain ⟨sch, ps, ss, _, hn2, _, _, _, _⟩ := connection_load_inv hl
  rw [merge_overrides_nil, alookup_aset_self] at hn2
  injection hn2 with hn2
  have hname : r'.name = n := by
    rw [hr]
    exact hn2.symm
  refine ⟨hname, ?_⟩
  subst hs
  have habs' : store_get store r'.name = none := by
    rw [hr]
    exact habsent
  rw [← hname, store_put, habs']
  exact store_get_append_self habs'

/-- Witness for C10: a body claiming the name `"evil"` still creates the
record under the path name `"c2"`. -/
theorem post_name_from_path_witness :
    c10_result.name = "c2" ∧
      store_get [sample_record, c10_result] "c2" = some c10_result :=
  post_name_from_path sample_registry sample_store "c2"
    [("name", "evil"), ("type", "custom"), ("api_key", "s")] 3 c10_result
    [sample_record, c10_result] (by decide)

/-- **C1**: redaction invariant — every record the list operation returns has
an empty secret bucket (enforced at the service layer whatever the store
holds); the get endpoint without secret revelation returns the redacted wire
dictionary, in which no key of the record's secret bucket occurs; and the
`/listsecrets` endpoint returns the full wire dictionary whose secret-key
portion is exactly the record's current secret bucket. -/
theorem redaction_invariant
    (reg : List ConnectionSchema) (store : List ConnectionRecord)
    (r : ConnectionRecord) (sch : ConnectionSchema)
    (hsch : get_schema reg r.type = some sch)
    (hwf : WFRecordAux sch r)
    (hstore : WFStore store)
    (hr : r ∈ store) :
    (∀ mr ar c, c ∈ connection_list store mr ar → c.secret_values = []) ∧
    Connection_get store r.name = Except.ok (to_dict (redact r)) ∧
    (∀ k, k ∈ akeys r.secret_values → alookup (to_dict (redact r)) k = none) ∧
    ConnectionWithSecret_get store r.name = Except.ok (to_dict r) ∧
    (to_dict r).filter (fun kv => decide (kv.1 ∈ akeys r.secret_values)) =
      r.secret_values := by
  obtain ⟨hndp, hnds, hdisj, hplain, hsecret⟩ := hwf
  have hsg : store_get store r.name = some r := store_get_of_mem hstore hr
  have hname_not : "name" ∉ akeys r.secret_values :=
    fun h => (hsecret _ h).1 (by decide)
  have htype_not : "type" ∉ akeys r.secret_values :=
    fun h => (hsecret _ h).1 (by decide)
  have hcre_not : "created_date" ∉ akeys r.secret_values :=
    fun h => (hsecret _ h).1 (by decide)
  have hmod_not : "last_modified_date" ∉ akeys r.secret_values :=
    fun h => (hsecret _ h).1 (by decide)
  have hexp_not : "expiry_time" ∉ akeys r.secret_values :=
    fun h => (hsecret _ h).1 (by decide)
  refine ⟨?_, ?_, ?_, ?_, ?_⟩
  · intro mr ar c hc
    rw [connection_list] at hc
    obtain ⟨d, _, rfl⟩ := List.mem_map.mp hc
    rfl
  · simp only [Connection_get, connection_get, hsg]
    rw [if_neg Bool.false_ne_true]
  · intro k hk
    obtain ⟨hkenv, f, hfmem, hfname, hfsec⟩ := hsecret k hk
    have hred : alookup (to_dict (redact r)) k =
        oor (alookup (redact r).plain_values k)
          (alookup (redact r).secret_values k) := alookup_to_dict hkenv
    rw [hred]
    show oor (alookup r.plain_values k) (alookup [] k) = none
    rw [alookup_nil, oor_none_right]
    exact alookup_eq_none_of_not_mem (fun hmem => hdisj k hmem hk)
  · simp only [ConnectionWithSecret_get, connection_get, hsg]
    rw [if_pos trivial]
  · rw [to_dict]
    rw [List.filter_append, List.filter_append, List.filter_append,
      List.filter_append]
    have h1 : List.filter
        (fun kv => decide (kv.1 ∈ akeys r.secret_values))
        [("name", r.name), ("type", r.type)] = [] := by
      rw [List.filter_cons_of_neg (by simpa using hname_not),
        List.filter_cons_of_neg (by simpa using htype_not)]
      rfl
    have h2 : List.filter
        (fun kv => decide (kv.1 ∈ akeys r.secret_values))
        r.plain_values = [] := by
      rw [List.filter_eq_nil_iff]
      intro kv hkv
      simp only [decide_eq_true_eq]
      exact fun hmem => hdisj kv.1 (mem_akeys.mpr ⟨kv.2, hkv⟩) hmem
    have h3 : List.filter
        (fun kv => decide (kv.1 ∈ akeys r.secret_values))
        r.secret_values = r.secret_values := by
      rw [List.filter_eq_self]
      intro kv hkv
      simp only [decide_eq_true_eq]
      exact mem_akeys.mpr ⟨kv.2, hkv⟩
    have h4 : List.filter
        (fun kv => decide (kv.1 ∈ akeys r.secret_values))
        [("created_date", toString r.created_date),
         ("last_modified_date", toString r.last_modified_date)] = [] := by
      rw [List.filter_cons_of_neg (by simpa using hcre_not),
        List.filter_cons_of_neg (by simpa using hmod_not)]
      rfl
    have h5 : List.filter
        (fun kv => decide (kv.1 ∈ akeys r.secret_values))
        (expiry_part r.expiry_time) = [] := by
      cases r.expiry_time with
      | none => rfl
      | some e =>
        rw [expiry_part, List.filter_cons_of_neg (by simpa using hexp_not)]
        rfl
    rw [h1, h2, h3, h4, h5, List.nil_append, List.nil_append,
      List.append_nil, List.append_nil]

/-- Witness for C1: the redacted get of `sample_record` and its secret-free
wire dictionary. -/
theorem redaction_invariant_witness :
    Connection_get sample_store "c1" =
      Except.ok (to_dict (redact sample_record)) :=
  (redaction_invariant sample_registry sample_store sample_record
    sample_schema (by decide) (by decide) (by decide) (by decide)).2.1

/-- The record produced by updating `sample_record` with a secret-field
override at time 5: the override is discarded and the old secret kept. -/
def c3_result : ConnectionRecord :=
  { name := "c1", type := "custom", plain_values := [("api_base", "x")],
    secret_values := [("api_key", "abc")], created_date := 1,
    last_modified_date := 5, expiry_time := none }

/-- The record produced by updating `sample_record` with a plain-field
override at time 6. -/
def c3_amended_result : ConnectionRecord :=
  { name := "c1", type := "custom", plain_values := [("api_base", "z")],
    secret_values := [("api_key", "abc")], created_date := 1,
    last_modified_date := 6, expiry_time := none }

/-- Counterexample to **C3** as stated: overriding the secret field
`api_key` (stored value `"abc"`) with `"new"` in an update body does not put
the overridden value in the secret bucket — the update succeeds but the
resulting record still carries `"abc"`, because line 105 of connection.py
overwrites the merged secret bucket with the existing one. -/
theorem secret_override_discarded_counterexample :
    put_pipeline sample_registry sample_store "c1" [("api_key", "new")] 5 =
      Except.ok (c3_result, [c3_result]) ∧
    alookup c3_result.secret_values "api_key" = some "abc" ∧
    ¬ alookup c3_result.secret_values "api_key" = some "new" := by
  decide

/-- **C3** (amended): for every update on an existing record, every
plain-field `(k, v)` of `field_overrides` lands in the plain bucket of the
merged record; every field not mentioned in `field_overrides` is unchanged
from the existing record; but the secret bucket of the merged record is
exactly the existing record's secret bucket, so a secret-field override is
discarded (the existing secret value is retained instead). -/
theorem field_overrides_merge_amended
    (reg : List ConnectionSchema) (store : List ConnectionRecord)
    (n : String) (body : List (String × String)) (now : Nat)
    (r r' : ConnectionRecord) (store' : List ConnectionRecord)
    (sch : ConnectionSchema)
    (hget : store_get store n = some r)
    (hsch : get_schema reg r.type = some sch)
    (hschwf : WFSchema sch)
    (hwf : WFRecordAux sch r)
    (htype : "type" ∉ akeys body)
    (hnd : (akeys body).Nodup)
    (hput : put_pipeline reg store n body now = Except.ok (r', store')) :
    (∀ k v f, (k, v) ∈ body → field_of sch k = some f → f.is_secret = false →
      k ∉ envelope_keys → alookup r'.plain_values k = some v) ∧
    (∀ k, k ∉ akeys body → k ∉ envelope_keys →
      alookup r'.plain_values k = alookup r.plain_values k) ∧
    r'.secret_values = r.secret_values := by
  obtain ⟨existing, c, hg, hl, hr, hs⟩ := put_pipeline_inv hput
  rw [hget] at hg
  injection hg with hg
  subst hg
  obtain ⟨sch₂, ps, ss, hs₂, hn₂, ht₂, hcf, hcp, hcs⟩ := connection_load_inv hl
  have hct : c.type = r.type := by
    rw [alookup_merge_not_mem htype, alookup_to_dict_type] at ht₂
    exact (Option.some.inj ht₂).symm
  have hsch₂ : sch = sch₂ := by
    rw [hct, hsch] at hs₂
    exact Option.some.inj hs₂
  subst hsch₂
  obtain ⟨hndp, hnds, hdisj, hplain, hsecret⟩ := hwf
  obtain ⟨hschnd, -, -, -⟩ := hschwf
  have hrp : r'.plain_values = ps := by
    rw [hr]
    exact hcp
  have hrs : r'.secret_values = r.secret_values := by
    rw [hr]
  refine ⟨?_, ?_, hrs⟩
  · intro k v f hkv hf hsec hkenv
    rw [hrp, (classify_fields_plain hcf hf hsec).1,
      alookup_filter_envelope _ hkenv]
    exact alookup_merge_mem hnd hkv _
  · intro k hkb hkenv
    rw [hrp]
    cases hfo : field_of sch k with
    | none =>
      obtain ⟨h1, _⟩ := classify_fields_undeclared hcf hfo
      have hnm : k ∉ akeys r.plain_values := by
        intro hmem
        obtain ⟨-, f, hfm, hfn, -⟩ := hplain k hmem
        rw [field_of_eq_of_mem hschnd hfm hfn] at hfo
        cases hfo
      rw [h1]
      exact (alookup_eq_none_of_not_mem hnm).symm
    | some f =>
      cases hfs : f.is_secret with
      | false =>
        obtain ⟨h1, -⟩ := classify_fields_plain hcf hfo hfs
        rw [h1, alookup_filter_envelope _ hkenv,
          alookup_merge_not_mem hkb, alookup_to_dict hkenv]
        cases hp : alookup r.plain_values k with
        | some w => rfl
        | none =>
          rw [oor_none_left]
          have hnm : k ∉ akeys r.secret_values := by
            intro hmem
            obtain ⟨-, g, hgm, hgn, hgs⟩ := hsecret k hmem
            rw [field_of_eq_of_mem hschnd hgm hgn] at hfo
            injection hfo with he
            rw [he, hfs] at hgs
            cases hgs
          exact alookup_eq_none_of_not_mem hnm
      | true =>
        obtain ⟨-, h2⟩ := classify_fields_secret hcf hfo hfs
        have hnm : k ∉ akeys r.plain_values := by
          intro hmem
          obtain ⟨-, g, hgm, hgn, hgs⟩ := hplain k hmem
          rw [field_of_eq_of_mem hschnd hgm hgn] at hfo
          injection hfo with he
          rw [he, hfs] at hgs
          cases hgs
        rw [h2]
        exact (alookup_eq_none_of_not_mem hnm).symm

/-- Witness for the amended C3: overriding `api_base` with `"z"` lands in
the plain bucket, while the secret bucket stays the existing one. -/
theorem field_overrides_merge_amended_witness :
    alookup c3_amended_result.plain_values "api_base" = some "z" ∧
      c3_amended_result.secret_values = sample_record.secret_values := by
  have h := field_overrides_merge_amended sample_registry sample_store "c1"
    [("api_base", "z")] 6 sample_record c3_amended_result [c3_amended_result]
    sample_schema (by decide) (by decide) (by decide) (by decide) (by decide)
    (by decide) (by decide)
  exact ⟨h.1 "api_base" "z"
    { name := "api_base", is_secret := false, allow_none := true,
      default := none }
    (by decide) (by decide) rfl (by decide), h.2.2⟩

theorem config_of_field_eq {f : FieldSpec} (hdef : f.default ≠ some "") :
    config_of_field f =
      { name := f.name, optional := f.allow_none, default := f.default } := by
  simp only [config_of_field]
  by_cases ht : f.name = "type"
  · rw [if_pos ht]
  · rw [if_neg ht]
    cases hd : f.default with
    | none => rfl
    | some s =>
      have hs : ¬s = "" := fun he => hdef (by rw [hd, he])
      show ({ name := f.name, optional := f.allow_none,
              default := if s = "" then none else some s } : ConnectionConfigSpec) =
        { name := f.name, optional := f.allow_none, default := some s }
      rw [if_neg hs]

/-- **C6**: the catalog builder returns exactly one entry per registered
connection type; under the registry invariants (and with no degenerate empty
defaults, which Python truthiness would drop) each entry's config specs are
exactly the non-internal declared fields — the `module` field is omitted —
with `optional` and `default` as declared, and the discriminator field's
config default is the type's canonical discriminator value. -/
theorem catalog_exact
    (reg : List ConnectionSchema)
    (hwf : ∀ sch ∈ reg, WFSchema sch)
    (hdef : ∀ sch ∈ reg, ∀ f ∈ sch.fields, f.default ≠ some "") :
    (ConnectionSpecs_get reg).length = reg.length ∧
    ConnectionSpecs_get reg = reg.map (fun sch =>
      { connection_type := string_replace sch.class_name "Schema" ""
        config_specs :=
          (sch.fields.filter
            (fun f => decide (f.name ∉ hide_connection_fields))).map
            (fun f => { name := f.name, optional := f.allow_none,
                        default := f.default }) }) ∧
    ∀ sch ∈ reg, ∀ f ∈ sch.fields, f.name = "type" →
      config_of_field f =
        { name := "type", optional := f.allow_none,
          default := some sch.type_name } := by
  refine ⟨by rw [ConnectionSpecs_get, List.length_map], ?_, ?_⟩
  · rw [ConnectionSpecs_get]
    apply List.map_congr_left
    intro sch hsch
    congr 1
    apply List.map_congr_left
    intro f hf
    exact config_of_field_eq (hdef sch hsch f (List.mem_of_mem_filter hf))
  · intro sch hsch f hf hname
    obtain ⟨hnd, ⟨ft, hft, hftname, hftsec, hftdef⟩, hres, htn⟩ := hwf sch hsch
    have hfeq : f = ft := name_unique hnd hf hft (by rw [hname, hftname])
    subst hfeq
    have hne : f.default ≠ some "" := by
      rw [hftdef]
      intro he
      exact htn (Option.some.inj he)
    rw [config_of_field_eq hne, hftname, hftdef]

/-- Witness for C6: the catalog of the sample registry — the `module` field
is omitted, `optional`/`default` are as declared, and the `type` entry's
default is the discriminator `"custom"`. -/
theorem catalog_exact_witness :
    ConnectionSpecs_get sample_registry =
      [{ connection_type := "CustomConnection",
         config_specs :=
           [{ name := "type", optional := false, default := some "custom" },
            { name := "api_base", optional := true, default := none },
            { name := "api_key", optional := true, default := none }] }] := by
  have h := catalog_exact sample_registry (by decide) (by decide)
  rw [h.2.1]
  decide

/-- A record's entry in the list response: its redacted wire dictionary
marshalled through the list response model. -/
def list_entry (r : ConnectionRecord) : List (String × String) :=
  marshal list_connection_field (to_dict (redact r))

/-- Counterexample to **C7** as stated: the list response is marshalled
through `list_connection_field` (connection.py lines 20–30, 60), which keeps
only name/type/module/expiry_time/created_date/last_modified_date — the
stored record's plain configuration value `api_base = "x"` does not appear
in the list output, although the claim requires the record's plain
configuration field values to be contained in it. -/
theorem list_drops_plain_fields_counterexample :
    ("api_base", "x") ∈ sample_record.plain_values ∧
    ConnectionList_get sample_store none none =
      [[("name", "c1"), ("type", "custom"),
        ("created_date", "1"), ("last_modified_date", "1")]] ∧
    alookup [("name", "c1"), ("type", "custom"), ("created_date", "1"),
      ("last_modified_date", "1")] "api_base" = none := by
  decide

/-- **C7** (amended): every stored record's entry in the list response
conforms to the marshalled wire shape: it contains `name`, `type`,
`created_date`, `last_modified_date`, and `expiry_time` exactly when the
record has one — but not the record's plain configuration fields, which the
list response model filters out (any plain key outside the model is absent
from the entry). -/
theorem list_entry_shape_amended
    (reg : List ConnectionSchema) (store : List ConnectionRecord)
    (r : ConnectionRecord) (sch : ConnectionSchema)
    (hsch : get_schema reg r.type = some sch)
    (hwf : WFRecordAux sch r)
    (hr : r ∈ store) :
    list_entry r ∈ ConnectionList_get store none (some true) ∧
    alookup (list_entry r) "name" = some r.name ∧
    alookup (list_entry r) "type" = some r.type ∧
    alookup (list_entry r) "created_date" = some (toString r.created_date) ∧
    alookup (list_entry r) "last_modified_date" =
      some (toString r.last_modified_date) ∧
    alookup (list_entry r) "expiry_time" =
      (r.expiry_time.map fun e => toString e) ∧
    ∀ k, k ∈ akeys r.plain_values → k ∉ list_connection_field →
      alookup (list_entry r) k = none := by
  obtain ⟨hndp, hnds, hdisj, hplain, hsecret⟩ := hwf
  have hpc : "created_date" ∉ akeys (redact r).plain_values := by
    show "created_date" ∉ akeys r.plain_values
    intro h
    exact (hplain _ h).1 (by decide)
  have hpm : "last_modified_date" ∉ akeys (redact r).plain_values := by
    show "last_modified_date" ∉ akeys r.plain_values
    intro h
    exact (hplain _ h).1 (by decide)
  have hpe : "expiry_time" ∉ akeys (redact r).plain_values := by
    show "expiry_time" ∉ akeys r.plain_values
    intro h
    exact (hplain _ h).1 (by decide)
  have hsnil : ∀ key : String, key ∉ akeys (redact r).secret_values :=
    fun key => List.not_mem_nil key
  refine ⟨?_, ?_, ?_, ?_, ?_, ?_, ?_⟩
  · show list_entry r ∈
      ((connection_list store 50 true).map to_dict).map
        (marshal list_connection_field)
    rw [connection_list, if_pos rfl]
    exact List.mem_map.mpr ⟨to_dict (redact r),
      List.mem_map.mpr ⟨redact r, List.mem_map.mpr ⟨r, hr, rfl⟩, rfl⟩, rfl⟩
  · rw [list_entry, alookup_marshal, if_pos (by decide)]
    exact alookup_to_dict_name (redact r)
  · rw [list_entry, alookup_marshal, if_pos (by decide)]
    exact alookup_to_dict_type (redact r)
  · rw [list_entry, alookup_marshal, if_pos (by decide)]
    exact alookup_to_dict_created hpc (hsnil _)
  · rw [list_entry, alookup_marshal, if_pos (by decide)]
    exact alookup_to_dict_modified hpm (hsnil _)
  · rw [list_entry, alookup_marshal, if_pos (by decide)]
    exact alookup_to_dict_expiry hpe (hsnil _)
  · intro k hk hkm
    rw [list_entry, alookup_marshal, if_neg hkm]

/-- Witness for the amended C7: the sample record's list entry carries its
name. -/
theorem list_entry_shape_amended_witness :
    alookup (list_entry sample_record) "name" = some "c1" := by
  have h := list_entry_shape_amended sample_registry sample_store
    sample_record sample_schema (by decide) (by decide) (by decide)
  exact h.2.1

end Promptflow
